import Mathlib

/-!
Verification of the task-progress-tracking subsystem of the ASCR Admin Portal.

The client-side task state machinery lives in
`services/frontend/my-app/src/app/tools/curation/page.tsx`:
`updateTaskStages`, the WebSocket `onmessage` handler (its `task_progress`
and `task_completed` branches), `retryTask`, `clearTask`, and the
`activeTasks.sort` comparator used to display the task history.
Those functions are embedded here as pure Lean functions on an explicit
task-list state.

The backend Task Store operations `set_status`, `get_input` and the retry
coordinator (services/backend) are not part of the available sources; where
a claim is decided by them they are modelled from the specification text,
and each such definition's doc comment says so.
-/

namespace ASCR

/-- JSON-like values, as carried in WebSocket message fields such as
`message.data` and `message.result` (dynamically typed in the source). -/
inductive JsonVal where
  | null
  | bool (b : Bool)
  | num (n : Int)
  | str (s : String)
  | arr (xs : List JsonVal)
  | obj (fields : List (String × JsonVal))
deriving Repr

/-- JavaScript truthiness of a JSON value: `null`, `false`, `0` and `""` are
falsy; every array and object (even empty) is truthy. -/
def jsTruthy : JsonVal → Bool
  | .null => false
  | .bool b => b
  | .num n => n != 0
  | .str s => s != ""
  | .arr _ => true
  | .obj _ => true

/-- The JavaScript `x || d` idiom applied to a possibly-absent JSON value:
`none` models an absent (`undefined`) field; a present but falsy value is
also replaced by the default. -/
def jsOr (x : Option JsonVal) (d : JsonVal) : JsonVal :=
  match x with
  | none => d
  | some v => if jsTruthy v then v else d

/-- JavaScript property access `v.k` on a JSON value: a field lookup on an
object, `undefined` (here `none`) on everything else. -/
def jsGetField : JsonVal → String → Option JsonVal
  | .obj fields, k => fields.lookup k
  | _, _ => none

/-- JavaScript strict equality `x === s` between a possibly-`undefined`
value and a string literal: true exactly when `x` is that string. -/
def jsStrictEqStr (x : Option JsonVal) (s : String) : Bool :=
  match x with
  | some (.str t) => t == s
  | _ => false

/-- One entry of a task's `stages` array, as built by `updateTaskStages` in
`page.tsx`: `{ stage, status, message, data, timestamp }`. -/
structure StageRecord where
  stage : String
  status : String
  message : String
  data : JsonVal
  timestamp : String
deriving Repr

/-- One element of the `activeTasks` React state in `page.tsx`:
`{ task_id, filename, status, stages?, created_at?, updated_at?, result? }`.
Optional fields are `Option`; `status` is one of the string literals
`queued | processing | completed | failed`. -/
structure Task where
  task_id : String
  filename : String
  status : String
  stages : Option (List StageRecord)
  created_at : Option String
  updated_at : Option String
  result : Option JsonVal
deriving Repr

/-- `updateTaskStages` from `page.tsx` (lines 544-571): look up the stage by
name with `findIndex`; if found, overwrite that slot with the new record,
else append the new record; `data: data || {}`, `timestamp` is the current
clock reading (passed here as `now`). -/
def updateTaskStages (currentStages : List StageRecord)
    (stage status message : String) (data : Option JsonVal) (now : String) :
    List StageRecord :=
  let newRecord : StageRecord :=
    { stage := stage, status := status, message := message,
      data := jsOr data (.obj []), timestamp := now }
  match currentStages.findIdx? (fun s => s.stage == stage) with
  | some i => currentStages.set i newRecord
  | none => currentStages ++ [newRecord]

/-- A `{ type: "task_progress", ... }` WebSocket message (`data` may be
absent). -/
structure ProgressMsg where
  task_id : String
  stage : String
  status : String
  message : String
  data : Option JsonVal
  timestamp : String

/-- The `task_progress` branch of the WebSocket `onmessage` handler in
`page.tsx` (lines 490-502): map over the task list, and for the task whose
`task_id` matches, replace `stages` with
`updateTaskStages(task.stages || [], ...)` and set `updated_at` to the
message timestamp; every other task is returned as is. -/
def handleTaskProgress (tasks : List Task) (m : ProgressMsg) (now : String) :
    List Task :=
  tasks.map fun t =>
    if t.task_id == m.task_id then
      { t with
        stages := some (updateTaskStages (t.stages.getD []) m.stage m.status
          m.message m.data now),
        updated_at := some m.timestamp }
    else t

/-- A `{ type: "task_completed", ... }` WebSocket message; `result` may be
absent. -/
structure CompletedMsg where
  task_id : String
  result : Option JsonVal
  timestamp : String

/-- The `task_completed` branch of the WebSocket `onmessage` handler in
`page.tsx` (lines 503-524): for the task whose `task_id` matches, set
`status` to `failed` if `message.result?.status === 'error'` and to
`completed` otherwise, store the message's `result`, and set `updated_at`;
every other task is returned as is. -/
def handleTaskCompleted (tasks : List Task) (m : CompletedMsg) : List Task :=
  tasks.map fun t =>
    if t.task_id == m.task_id then
      { t with
        status :=
          if jsStrictEqStr (m.result.bind (jsGetField · "status")) "error"
          then "failed" else "completed",
        result := m.result,
        updated_at := some m.timestamp }
    else t

/-- The successful-response body of `POST /tasks/{id}/retry` as consumed by
`retryTask` in `page.tsx` (only `new_task_id` and `filename` are read). -/
structure RetryResponse where
  new_task_id : String
  filename : String

/-- The success path of `retryTask` in `page.tsx` (lines 387-414): build
`{ task_id: result.new_task_id, filename: result.filename, status:
'queued', stages: [] }` and prepend it to the task list
(`setActiveTasks(prev => [newTask, ...prev])`). -/
def retryTaskSuccess (tasks : List Task) (r : RetryResponse) : List Task :=
  { task_id := r.new_task_id, filename := r.filename, status := "queued",
    stages := some [], created_at := none, updated_at := none,
    result := none : Task } :: tasks

/-- The success path of `clearTask` in `page.tsx` (lines 417-436): drop every
task whose `task_id` equals the deleted one
(`prev.filter(task => task.task_id !== taskId)`). -/
def clearTaskSuccess (tasks : List Task) (taskId : String) : List Task :=
  tasks.filter fun t => t.task_id != taskId

/-- The sort key of the `activeTasks.sort` comparator in `page.tsx`
(lines 874-884): `created_at ? new Date(created_at).getTime() : 0`, with
the `Date` parse abstracted as a function `getTime` from timestamp strings
to numbers. -/
def taskSortKey (getTime : String → Int) (t : Task) : Int :=
  match t.created_at with
  | some s => getTime s
  | none => 0

/-- Stable descending insertion by `taskSortKey`: the element is placed
before the first task with a strictly smaller key, after all earlier tasks
with an equal or larger key. -/
def insertTaskDesc (getTime : String → Int) (t : Task) :
    List Task → List Task
  | [] => [t]
  | u :: us =>
    if taskSortKey getTime u < taskSortKey getTime t then t :: u :: us
    else u :: insertTaskDesc getTime t us

/-- The `activeTasks.sort((a, b) => dateB - dateA)` display order of
`page.tsx` (lines 874-884), modelled as a stable sort by descending
`taskSortKey`. -/
def sortTasksDesc (getTime : String → Int) : List Task → List Task
  | [] => []
  | t :: ts => insertTaskDesc getTime t (sortTasksDesc getTime ts)

/-- Task statuses of the spec's data model (§3):
`queued | processing | completed | failed`. -/
inductive TaskStatus where
  | queued
  | processing
  | completed
  | failed
deriving Repr, DecidableEq

/-- Error taxonomy of the spec (§7). -/
inductive StoreError where
  | NotFound
  | AlreadyExists
  | InvalidTransition
  | Expired
  | StorageUnavailable
deriving Repr, DecidableEq

/-- `completed` and `failed` are the terminal task statuses (§4.5 state
machine). -/
def TaskStatus.isTerminal : TaskStatus → Bool
  | .completed => true
  | .failed => true
  | _ => false

/-- Modelled from the spec: the legal task-status moves of §3/§4.5 —
`queued→processing→{completed,failed}`; a write of the current status is a
no-op rather than a regression; everything else is forbidden. -/
def allowedTransition : TaskStatus → TaskStatus → Bool
  | .queued, .processing => true
  | .processing, .completed => true
  | .processing, .failed => true
  | a, b => a == b

/-- Modelled from the spec: `set_status(task_id, status)` of the Task Store
(§4.1), whose implementation (services/backend) is not under src/: fails
with `NotFound` if the task is absent; fails with `InvalidTransition` if
the requested move is not a legal transition (in particular any regression
of a terminal state); otherwise records the new status. The store is
reduced to the field `set_status` inspects (task_id → status). -/
def set_status (store : List (String × TaskStatus)) (task_id : String)
    (new : TaskStatus) : Except StoreError (List (String × TaskStatus)) :=
  match store.lookup task_id with
  | none => .error .NotFound
  | some cur =>
    if allowedTransition cur new then
      .ok (store.map fun p => if p.1 == task_id then (p.1, new) else p)
    else .error .InvalidTransition

/-- The stage record one stage write builds in `updateTaskStages`
(`page.tsx` lines 549-556 and 560-569: both branches store the same
object). -/
def mkStageRecord (stage status message : String) (data : Option JsonVal)
    (now : String) : StageRecord :=
  { stage := stage, status := status, message := message,
    data := jsOr data (.obj []), timestamp := now }

/-- Structural form of the replace-or-append rule on a stage list, used to
reason about `updateTaskStages` by induction. -/
def replaceOrAppend (r : StageRecord) : List StageRecord → List StageRecord
  | [] => [r]
  | s :: ss => if s.stage == r.stage then r :: ss else s :: replaceOrAppend r ss

/-- Modelled from the spec: `put_stage(task_id, stage_record)` of the Task
Store (§4.1), whose implementation (services/backend) is not under src/:
fails with `NotFound` if the task is absent, else applies the
replace-or-append rule to that task's stored stage list. -/
def put_stage (store : List (String × List StageRecord)) (task_id : String)
    (r : StageRecord) : Except StoreError (List (String × List StageRecord)) :=
  match store.lookup task_id with
  | none => .error .NotFound
  | some _ =>
    .ok (store.map fun p =>
      if p.1 == task_id then (p.1, replaceOrAppend r p.2) else p)

/-- Modelled from the spec: a Cached Input entry (§3), original submitted
bytes with the expiry instant of its shorter TTL window; the store decides
expiry. The backend store implementation is not under src/. -/
structure CachedInput where
  bytes : String
  expires_at : Nat
deriving Repr, DecidableEq

/-- Modelled from the spec: `get_input(task_id)` of the Task Store (§4.1),
not under src/: fails with `NotFound` if absent, with `Expired` once the
shorter TTL has elapsed, else returns the cached bytes. -/
def get_input (inputs : List (String × CachedInput)) (task_id : String)
    (now : Nat) : Except StoreError String :=
  match inputs.lookup task_id with
  | none => .error .NotFound
  | some ci => if ci.expires_at ≤ now then .error .Expired else .ok ci.bytes

/-- Modelled from the spec: the stored task record as the Retry Coordinator
reads it (§4.5 only needs the label). -/
structure StoredTask where
  label : String
deriving Repr, DecidableEq

/-- The successful result of `retry` (§4.5 step 5):
`(original_task_id, new_task_id, label)`. -/
structure RetryOk where
  original_task_id : String
  new_task_id : String
  label : String
deriving Repr, DecidableEq

/-- Modelled from the spec: the Retry Coordinator's
`retry(original_task_id)` (§4.5), whose implementation (services/backend)
is not under src/: fetch the task (`NotFound` if absent), fetch the cached
input (`Expired` if the shorter TTL elapsed, `NotFound` if absent), then
return `(original_task_id, new_task_id, label)` with a freshly allocated
`new_task_id` (passed in here). -/
def retry (tasks : List (String × StoredTask))
    (inputs : List (String × CachedInput)) (orig newId : String) (now : Nat) :
    Except StoreError RetryOk :=
  match tasks.lookup orig with
  | none => .error .NotFound
  | some t =>
    match get_input inputs orig now with
    | .error e => .error e
    | .ok _ => .ok ⟨orig, newId, t.label⟩

/-- The HTTP mapping of retry errors (§6): `404` for a missing task, `410`
for expired cached input, `500` otherwise. -/
def httpStatusOf : StoreError → Nat
  | .NotFound => 404
  | .Expired => 410
  | _ => 500

/-! ## Lemmas: the replace-or-append rule -/

lemma updateTaskStages_eq (cur : List StageRecord) (stage status message : String)
    (data : Option JsonVal) (now : String) :
    updateTaskStages cur stage status message data now
      = replaceOrAppend (mkStageRecord stage status message data now) cur := by
  induction cur with
  | nil => rfl
  | cons s ss ih =>
    by_cases h : (s.stage == stage)
    · simp [updateTaskStages, replaceOrAppend, List.findIdx?_cons, h, mkStageRecord]
    · rcases hss : ss.findIdx? (fun x => x.stage == stage) with _ | i
      · simp only [updateTaskStages, List.findIdx?_cons] at ih ⊢
        simp [h, hss, replaceOrAppend, mkStageRecord] at ih ⊢
        exact ih
      · simp only [updateTaskStages, List.findIdx?_cons] at ih ⊢
        simp [h, hss, replaceOrAppend, mkStageRecord] at ih ⊢
        exact ih

lemma replaceOrAppend_of_not_mem (r : StageRecord) (l : List StageRecord)
    (name : String) (hr : r.stage = name)
    (h : ∀ s ∈ l, s.stage ≠ name) : replaceOrAppend r l = l ++ [r] := by
  subst hr
  induction l with
  | nil => rfl
  | cons s ss ih =>
    have hs : (s.stage == r.stage) = false := by
      simpa using h s (List.mem_cons_self s ss)
    simp [replaceOrAppend, hs]
    exact ih fun x hx => h x (List.mem_cons_of_mem s hx)

lemma replaceOrAppend_split (r : StageRecord) (l1 l2 : List StageRecord)
    (s : StageRecord) (name : String) (hr : r.stage = name)
    (h1 : ∀ x ∈ l1, x.stage ≠ name) (hs : s.stage = name) :
    replaceOrAppend r (l1 ++ s :: l2) = l1 ++ r :: l2 := by
  subst hr
  induction l1 with
  | nil => simp [replaceOrAppend, hs]
  | cons x xs ih =>
    have hx : (x.stage == r.stage) = false := by
      simpa using h1 x (List.mem_cons_self x xs)
    simp [replaceOrAppend, hx]
    exact ih fun y hy => h1 y (List.mem_cons_of_mem x hy)

lemma countP_replaceOrAppend (r : StageRecord) (l : List StageRecord)
    (name : String) (hr : r.stage = name)
    (h : l.countP (fun s => s.stage == name) ≤ 1) :
    (replaceOrAppend r l).countP (fun s => s.stage == name) = 1 := by
  subst hr
  induction l with
  | nil => simp [replaceOrAppend, List.countP_cons]
  | cons s ss ih =>
    cases hh : (s.stage == r.stage) with
    | true =>
      have hss : ss.countP (fun s => s.stage == r.stage) = 0 := by
        simp only [List.countP_cons, hh, if_true] at h
        omega
      simp [replaceOrAppend, hh, List.countP_cons, hss]
    | false =>
      have hle : ss.countP (fun s => s.stage == r.stage) ≤ 1 := by
        simp only [List.countP_cons, hh, Bool.false_eq_true, if_false] at h
        omega
      simp [replaceOrAppend, hh, List.countP_cons, ih hle]

lemma filter_replaceOrAppend (r : StageRecord) (l : List StageRecord)
    (name : String) (hr : r.stage = name)
    (h : l.countP (fun s => s.stage == name) ≤ 1) :
    (replaceOrAppend r l).filter (fun s => s.stage == name) = [r] := by
  subst hr
  induction l with
  | nil => simp [replaceOrAppend]
  | cons s ss ih =>
    cases hh : (s.stage == r.stage) with
    | true =>
      have hss : ss.countP (fun s => s.stage == r.stage) = 0 := by
        simp only [List.countP_cons, hh, if_true] at h
        omega
      have hfil : ss.filter (fun s => s.stage == r.stage) = [] := by
        simpa [List.countP_eq_length_filter, List.length_eq_zero] using hss
      simp [replaceOrAppend, hh, List.filter_cons, hfil]
    | false =>
      have hle : ss.countP (fun s => s.stage == r.stage) ≤ 1 := by
        simp only [List.countP_cons, hh, Bool.false_eq_true, if_false] at h
        omega
      simp [replaceOrAppend, hh, List.filter_cons, ih hle]

lemma findIdx?_replaceOrAppend (r : StageRecord) (l : List StageRecord)
    (name : String) (hr : r.stage = name) :
    (replaceOrAppend r l).findIdx? (fun s => s.stage == name)
      = some ((l.findIdx? (fun s => s.stage == name)).getD l.length) := by
  subst hr
  induction l with
  | nil => simp [replaceOrAppend, List.findIdx?_cons]
  | cons s ss ih =>
    cases hh : (s.stage == r.stage) with
    | true => simp [replaceOrAppend, hh, List.findIdx?_cons]
    | false =>
      rcases hss : ss.findIdx? (fun s => s.stage == r.stage) with _ | i
      · simp [replaceOrAppend, hh, List.findIdx?_cons, ih, hss]
      · simp [replaceOrAppend, hh, List.findIdx?_cons, ih, hss]

/-- C1: a stage update whose stage name already occurs in the list replaces
exactly that record in place at its original index, leaving every other
record unchanged; a stage update whose name is absent appends one new
record at the end; and writing the same stage name twice (starting from a
list with at most one record of that name) yields exactly one record for
that name, reflecting the latest write, at its original list position. -/
theorem updateTaskStages_replace_or_append
    (cur : List StageRecord) (stage st1 msg1 : String) (d1 : Option JsonVal)
    (t1 : String) (st2 msg2 : String) (d2 : Option JsonVal) (t2 : String) :
    (∀ l1 s l2, cur = l1 ++ s :: l2 → s.stage = stage →
        (∀ x ∈ l1, x.stage ≠ stage) →
        updateTaskStages cur stage st1 msg1 d1 t1
          = l1 ++ mkStageRecord stage st1 msg1 d1 t1 :: l2) ∧
    ((∀ s ∈ cur, s.stage ≠ stage) →
        updateTaskStages cur stage st1 msg1 d1 t1
          = cur ++ [mkStageRecord stage st1 msg1 d1 t1]) ∧
    (cur.countP (fun s => s.stage == stage) ≤ 1 →
        (updateTaskStages (updateTaskStages cur stage st1 msg1 d1 t1)
            stage st2 msg2 d2 t2).filter (fun s => s.stage == stage)
          = [mkStageRecord stage st2 msg2 d2 t2] ∧
        (updateTaskStages (updateTaskStages cur stage st1 msg1 d1 t1)
            stage st2 msg2 d2 t2).findIdx? (fun s => s.stage == stage)
          = (updateTaskStages cur stage st1 msg1 d1 t1).findIdx?
              (fun s => s.stage == stage)) := by
  refine ⟨?_, ?_, ?_⟩
  · intro l1 s l2 hcur hs h1
    rw [updateTaskStages_eq, hcur]
    exact replaceOrAppend_split _ _ _ _ _ rfl h1 hs
  · intro h
    rw [updateTaskStages_eq]
    exact replaceOrAppend_of_not_mem _ _ _ rfl h
  · intro hcount
    have hc1 : (updateTaskStages cur stage st1 msg1 d1 t1).countP
        (fun s => s.stage == stage) = 1 := by
      rw [updateTaskStages_eq]
      exact countP_replaceOrAppend _ _ _ rfl hcount
    constructor
    · rw [updateTaskStages_eq (updateTaskStages cur stage st1 msg1 d1 t1)]
      exact filter_replaceOrAppend _ _ _ rfl (by omega)
    · rw [updateTaskStages_eq (updateTaskStages cur stage st1 msg1 d1 t1)]
      rw [findIdx?_replaceOrAppend (mkStageRecord stage st2 msg2 d2 t2)
          (updateTaskStages cur stage st1 msg1 d1 t1) stage rfl]
      rcases hidx : (updateTaskStages cur stage st1 msg1 d1 t1).findIdx?
          (fun s => s.stage == stage) with _ | i
      · exfalso
        have : ∀ x ∈ updateTaskStages cur stage st1 msg1 d1 t1,
            ¬ (x.stage == stage) := by
          intro x hx
          have := List.findIdx?_eq_none_iff.mp hidx
          simpa using this x hx
        have h0 : (updateTaskStages cur stage st1 msg1 d1 t1).countP
            (fun s => s.stage == stage) = 0 :=
          List.countP_eq_zero.mpr this
        omega
      · simp [hidx]

/-- Witness for C1: on a list holding one "upload" stage, a second write to
"upload" replaces it in place; on the empty list it appends; and two
successive writes to "upload" leave exactly one "upload" record carrying
the latest status. -/
theorem updateTaskStages_replace_or_append_witness :
    updateTaskStages [mkStageRecord "upload" "processing" "m0" none "t0"]
        "upload" "completed" "ok" none "t1"
      = [mkStageRecord "upload" "completed" "ok" none "t1"] ∧
    updateTaskStages [] "upload" "completed" "ok" none "t1"
      = [mkStageRecord "upload" "completed" "ok" none "t1"] ∧
    (updateTaskStages (updateTaskStages
        [mkStageRecord "upload" "processing" "m0" none "t0"]
        "upload" "completed" "ok" none "t1") "upload" "failed" "err" none
        "t2").filter (fun s => s.stage == "upload")
      = [mkStageRecord "upload" "failed" "err" none "t2"] := by
  obtain ⟨h1, h2, h3⟩ := updateTaskStages_replace_or_append
    [mkStageRecord "upload" "processing" "m0" none "t0"]
    "upload" "completed" "ok" none "t1" "failed" "err" none "t2"
  obtain ⟨h1e, h2e, h3e⟩ := updateTaskStages_replace_or_append
    [] "upload" "completed" "ok" none "t1" "failed" "err" none "t2"
  refine ⟨?_, ?_, ?_⟩
  · have := h1 [] (mkStageRecord "upload" "processing" "m0" none "t0") []
      rfl rfl (by intro x hx; cases hx)
    simpa using this
  · simpa using h2e (by intro s hs; cases hs)
  · exact (h3 (by decide)).1

/-- C2: the spec-modelled `set_status` never regresses a task status: once
the stored status is terminal (`completed` or `failed`), any write of a
different status is rejected with `InvalidTransition` (not applied), and
every successful write moves only along
`queued → processing → {completed, failed}` or rewrites the current
status unchanged. -/
theorem set_status_monotonic :
    (∀ (store : List (String × TaskStatus)) (id : String)
        (cur new : TaskStatus), store.lookup id = some cur →
        cur.isTerminal = true → new ≠ cur →
        set_status store id new = .error .InvalidTransition) ∧
    (∀ (store store' : List (String × TaskStatus)) (id : String)
        (cur new : TaskStatus), store.lookup id = some cur →
        set_status store id new = .ok store' →
        (cur = .queued ∧ new = .processing) ∨
        (cur = .processing ∧ (new = .completed ∨ new = .failed)) ∨
        new = cur) := by
  constructor
  · intro store id cur new hlook hterm hne
    have hallow : allowedTransition cur new = false := by
      cases cur <;> cases new <;>
        simp_all [TaskStatus.isTerminal, allowedTransition]
    simp [set_status, hlook, hallow]
  · intro store store' id cur new hlook hok
    have hallow : allowedTransition cur new = true := by
      by_contra h
      have hf : allowedTransition cur new = false := by
        simpa using h
      simp [set_status, hlook, hf] at hok
    cases cur <;> cases new <;> simp_all [allowedTransition]

/-- Witness for C2: with task `t1` stored as `completed`, a `set_status` to
`processing` is rejected with `InvalidTransition`. -/
theorem set_status_monotonic_witness :
    set_status [("t1", TaskStatus.completed)] "t1" TaskStatus.processing
      = .error .InvalidTransition :=
  set_status_monotonic.1 [("t1", TaskStatus.completed)] "t1"
    TaskStatus.completed TaskStatus.processing (by decide) (by decide)
    (by decide)

/-- C3: a successful retry prepends exactly one new task carrying the
returned `new_task_id`, status `queued` and an empty stage list, and
leaves every existing entry — the original task included — unchanged; if
the allocated id was not already in the list, exactly one entry carries it
afterwards. -/
theorem retryTaskSuccess_spec (tasks : List Task) (r : RetryResponse) :
    ∃ newT : Task,
      retryTaskSuccess tasks r = newT :: tasks ∧
      newT.task_id = r.new_task_id ∧
      newT.status = "queued" ∧
      newT.stages = some [] ∧
      (tasks.countP (fun t => t.task_id == r.new_task_id) = 0 →
        (retryTaskSuccess tasks r).countP
          (fun t => t.task_id == r.new_task_id) = 1) := by
  refine ⟨_, rfl, rfl, rfl, rfl, ?_⟩
  intro h
  simp [retryTaskSuccess, List.countP_cons, h]

/-- Witness for C3: retrying onto the empty task list yields exactly one
entry carrying the fresh id `n1`. -/
theorem retryTaskSuccess_spec_witness :
    (retryTaskSuccess [] ⟨"n1", "f.pdf"⟩).countP
      (fun t => t.task_id == "n1") = 1 := by
  obtain ⟨newT, heq, hid, hst, hstages, hcount⟩ :=
    retryTaskSuccess_spec [] ⟨"n1", "f.pdf"⟩
  exact hcount (by decide)

/-- C4: after clearing a task id, no entry with that id remains; every entry
with a different id survives, in the original relative order (the result is
a sublist of the input); and clearing the same id a second time leaves the
list unchanged. -/
theorem clearTaskSuccess_spec (tasks : List Task) (id : String) :
    (∀ t ∈ clearTaskSuccess tasks id, t.task_id ≠ id) ∧
    (clearTaskSuccess tasks id).Sublist tasks ∧
    (∀ t ∈ tasks, t.task_id ≠ id → t ∈ clearTaskSuccess tasks id) ∧
    clearTaskSuccess (clearTaskSuccess tasks id) id
      = clearTaskSuccess tasks id := by
  refine ⟨?_, ?_, ?_, ?_⟩
  · intro t ht
    have := List.mem_filter.mp ht
    simpa using this.2
  · exact List.filter_sublist _
  · intro t ht hne
    exact List.mem_filter.mpr ⟨ht, by simpa using hne⟩
  · apply List.filter_eq_self.mpr
    intro t ht
    exact (List.mem_filter.mp ht).2

/-- Witness for C4: clearing `t1` from a two-task list keeps the `t2`
entry. -/
theorem clearTaskSuccess_spec_witness :
    (⟨"t2", "b.pdf", "queued", some [], none, none, none⟩ : Task)
      ∈ clearTaskSuccess
        [⟨"t1", "a.pdf", "failed", some [], none, none, none⟩,
         ⟨"t2", "b.pdf", "queued", some [], none, none, none⟩] "t1" :=
  (clearTaskSuccess_spec
      [⟨"t1", "a.pdf", "failed", some [], none, none, none⟩,
       ⟨"t2", "b.pdf", "queued", some [], none, none, none⟩] "t1").2.2.1
    ⟨"t2", "b.pdf", "queued", some [], none, none, none⟩
    (List.mem_cons_of_mem _ (List.mem_cons_self _ _)) (by decide)

/-! ## Lemmas: the descending sort of the task history display -/

lemma taskSortKey_of_created (getTime : String → Int) (t : Task)
    (s : String) (h : t.created_at = some s) :
    taskSortKey getTime t = getTime s := by
  simp [taskSortKey, h]

lemma insertTaskDesc_perm (getTime : String → Int) (t : Task)
    (l : List Task) : (insertTaskDesc getTime t l).Perm (t :: l) := by
  induction l with
  | nil => exact List.Perm.refl [t]
  | cons u us ih =>
    by_cases h : taskSortKey getTime u < taskSortKey getTime t
    · simp [insertTaskDesc, h]
    · simp only [insertTaskDesc, if_neg h]
      exact List.Perm.trans (List.Perm.cons u ih) (List.Perm.swap t u us)

lemma sortTasksDesc_perm (getTime : String → Int) (l : List Task) :
    (sortTasksDesc getTime l).Perm l := by
  induction l with
  | nil => exact List.Perm.refl []
  | cons t ts ih =>
    exact List.Perm.trans (insertTaskDesc_perm getTime t _)
      (List.Perm.cons t ih)

lemma pairwise_insertTaskDesc (getTime : String → Int) (t : Task)
    (l : List Task)
    (h : l.Pairwise (fun a b => taskSortKey getTime b ≤ taskSortKey getTime a)) :
    (insertTaskDesc getTime t l).Pairwise
      (fun a b => taskSortKey getTime b ≤ taskSortKey getTime a) := by
  induction l with
  | nil => simp [insertTaskDesc]
  | cons u us ih =>
    rcases List.pairwise_cons.mp h with ⟨hu, hus⟩
    by_cases hlt : taskSortKey getTime u < taskSortKey getTime t
    · simp only [insertTaskDesc, if_pos hlt]
      refine List.pairwise_cons.mpr ⟨?_, h⟩
      intro x hx
      rcases List.mem_cons.mp hx with rfl | hx'
      · exact le_of_lt hlt
      · exact le_trans (hu x hx') (le_of_lt hlt)
    · simp only [insertTaskDesc, if_neg hlt]
      refine List.pairwise_cons.mpr ⟨?_, ih hus⟩
      intro x hx
      have hmem := (List.Perm.mem_iff (insertTaskDesc_perm getTime t us)).mp hx
      rcases List.mem_cons.mp hmem with rfl | hx'
      · exact not_lt.mp hlt
      · exact hu x hx'

lemma pairwise_sortTasksDesc (getTime : String → Int) (l : List Task) :
    (sortTasksDesc getTime l).Pairwise
      (fun a b => taskSortKey getTime b ≤ taskSortKey getTime a) := by
  induction l with
  | nil => simp [sortTasksDesc]
  | cons t ts ih => exact pairwise_insertTaskDesc getTime t _ ih

/-- C5: the displayed task history is a permutation of the task list ordered
most recent first: whenever position `i` is no later than position `j` in
the sorted output and both tasks carry a `created_at` timestamp, the task
at `j` has a time value no later than the task at `i` — for any
interpretation `getTime` of timestamp strings as times. -/
theorem sortTasksDesc_most_recent_first (getTime : String → Int)
    (l : List Task) :
    (sortTasksDesc getTime l).Perm l ∧
    ∀ (i j : Fin (sortTasksDesc getTime l).length), (i : Nat) ≤ (j : Nat) →
      ∀ sa sb, ((sortTasksDesc getTime l).get i).created_at = some sa →
        ((sortTasksDesc getTime l).get j).created_at = some sb →
        getTime sb ≤ getTime sa := by
  refine ⟨sortTasksDesc_perm getTime l, ?_⟩
  intro i j hij sa sb ha hb
  rcases Nat.lt_or_ge (i : Nat) (j : Nat) with hlt | hge
  · have hp := List.pairwise_iff_get.mp (pairwise_sortTasksDesc getTime l)
      i j hlt
    rw [taskSortKey_of_created getTime _ sa ha,
      taskSortKey_of_created getTime _ sb hb] at hp
    exact hp
  · have hji : j = i := Fin.ext (Nat.le_antisymm hge hij)
    rw [hji] at hb
    rw [ha] at hb
    cases hb
    exact le_refl _

/-- Witness for C5: sorting two concrete tasks (timestamp strings
interpreted by length) puts the more recent one first and permutes the
input. -/
theorem sortTasksDesc_most_recent_first_witness :
    (sortTasksDesc (fun s => (s.length : Int))
        [⟨"t1", "a.pdf", "completed", some [], some "1", none, none⟩,
         ⟨"t2", "b.pdf", "queued", some [], some "22", none, none⟩]).Perm
      [⟨"t1", "a.pdf", "completed", some [], some "1", none, none⟩,
       ⟨"t2", "b.pdf", "queued", some [], some "22", none, none⟩] ∧
    (("1".length : Int) ≤ ("22".length : Int)) := by
  obtain ⟨hperm, hord⟩ := sortTasksDesc_most_recent_first
    (fun s => (s.length : Int))
    [⟨"t1", "a.pdf", "completed", some [], some "1", none, none⟩,
     ⟨"t2", "b.pdf", "queued", some [], some "22", none, none⟩]
  refine ⟨hperm, ?_⟩
  exact hord ⟨0, by decide⟩ ⟨1, by decide⟩ (by decide) "22" "1" (by decide)
    (by decide)

/-- C6 counterexample: the claim that a `task_progress` update for an
unknown `task_id` fails with an error rather than silently leaving the
state unchanged is false of the frontend handler: on a concrete list with
no matching task the handler returns the list unchanged and signals
nothing. -/
theorem handleTaskProgress_unknown_id_counterexample :
    handleTaskProgress
      [⟨"t1", "a.pdf", "queued", some [], none, none, none⟩]
      ⟨"zz", "upload", "processing", "m", none, "ts"⟩ "now"
      = [⟨"t1", "a.pdf", "queued", some [], none, none, none⟩] := by
  rfl

/-- C6 amended: the backend `put_stage` (spec-modelled) fails with
`NotFound` when the task is absent, while the frontend `task_progress`
handler for a `task_id` matching no task leaves the task list unchanged
and reports no error. -/
theorem put_stage_notFound_frontend_noop :
    (∀ (store : List (String × List StageRecord)) (id : String)
        (r : StageRecord), store.lookup id = none →
        put_stage store id r = .error .NotFound) ∧
    (∀ (tasks : List Task) (m : ProgressMsg) (now : String),
        (∀ t ∈ tasks, t.task_id ≠ m.task_id) →
        handleTaskProgress tasks m now = tasks) := by
  constructor
  · intro store id r h
    simp [put_stage, h]
  · intro tasks m now h
    unfold handleTaskProgress
    conv_rhs => rw [← List.map_id tasks]
    apply List.map_congr_left
    intro x hx
    have hne : (x.task_id == m.task_id) = false := by
      simpa using h x hx
    simp [hne]

/-- Witness for C6 (amended): a `put_stage` against an empty store is
`NotFound`, and a progress update for `t9` leaves a `t1`-only list
untouched. -/
theorem put_stage_notFound_frontend_noop_witness :
    put_stage [] "t1" (mkStageRecord "upload" "processing" "m" none "t0")
      = .error .NotFound ∧
    handleTaskProgress
      [⟨"t1", "a.pdf", "processing", some [], none, none, none⟩]
      ⟨"t9", "upload", "processing", "m", none, "ts"⟩ "now"
      = [⟨"t1", "a.pdf", "processing", some [], none, none, none⟩] := by
  obtain ⟨h1, h2⟩ := put_stage_notFound_frontend_noop
  refine ⟨h1 [] "t1" _ rfl, ?_⟩
  exact h2 _ _ "now" (by intro t htm; simp at htm; subst htm; decide)

/-- C7: the spec-modelled retry coordinator distinguishes an expired cached
input from a missing task: with the task record present but the input past
its (shorter) TTL, `retry` fails with `Expired` (mapped to HTTP 410); with
the task record absent it fails with `NotFound` (HTTP 404); and `retry`
returns success only while an unexpired cached input exists. -/
theorem retry_expiry_spec :
    (∀ (tasks : List (String × StoredTask))
        (inputs : List (String × CachedInput)) (orig newId : String)
        (now : Nat) (t : StoredTask) (ci : CachedInput),
        tasks.lookup orig = some t → inputs.lookup orig = some ci →
        ci.expires_at ≤ now →
        retry tasks inputs orig newId now = .error .Expired) ∧
    (∀ (tasks : List (String × StoredTask))
        (inputs : List (String × CachedInput)) (orig newId : String)
        (now : Nat), tasks.lookup orig = none →
        retry tasks inputs orig newId now = .error .NotFound) ∧
    (∀ (tasks : List (String × StoredTask))
        (inputs : List (String × CachedInput)) (orig newId : String)
        (now : Nat) (r : RetryOk),
        retry tasks inputs orig newId now = .ok r →
        ∃ ci, inputs.lookup orig = some ci ∧ now < ci.expires_at) ∧
    httpStatusOf .Expired = 410 ∧ httpStatusOf .NotFound = 404 := by
  refine ⟨?_, ?_, ?_, rfl, rfl⟩
  · intro tasks inputs orig newId now t ci ht hi hexp
    simp [retry, get_input, ht, hi, hexp]
  · intro tasks inputs orig newId now h
    simp [retry, h]
  · intro tasks inputs orig newId now r hok
    rcases hT : tasks.lookup orig with _ | t
    · simp [retry, hT] at hok
    · rcases hI : inputs.lookup orig with _ | ci
      · simp [retry, get_input, hT, hI] at hok
      · by_cases hexp : ci.expires_at ≤ now
        · simp [retry, get_input, hT, hI, hexp] at hok
        · exact ⟨ci, rfl, by omega⟩

/-- Witness for C7: with task `t1` stored and its input expired at 100,
retrying at time 150 is `Expired`; with no task record it is `NotFound`. -/
theorem retry_expiry_spec_witness :
    retry [("t1", ⟨"f.pdf"⟩)] [("t1", ⟨"aGVsbG8=", 100⟩)] "t1" "t2" 150
      = .error .Expired ∧
    retry [] [("t1", ⟨"aGVsbG8=", 100⟩)] "t1" "t2" 150
      = .error .NotFound := by
  constructor
  · exact retry_expiry_spec.1 [("t1", ⟨"f.pdf"⟩)]
      [("t1", ⟨"aGVsbG8=", 100⟩)] "t1" "t2" 150 ⟨"f.pdf"⟩ ⟨"aGVsbG8=", 100⟩
      (by decide) (by decide) (by decide)
  · exact retry_expiry_spec.2.1 [] [("t1", ⟨"aGVsbG8=", 100⟩)] "t1" "t2" 150
      (by decide)

/-- C8: frame property of the `task_progress` handler: every task whose id
differs from the message's is returned unchanged at its position, and the
matching task keeps its `task_id`, `filename`, `status`, `created_at` and
`result` (only `stages` and `updated_at` may change). -/
theorem handleTaskProgress_frame (tasks : List Task) (m : ProgressMsg)
    (now : String) :
    (∀ (i : Nat) (t : Task), tasks[i]? = some t →
        t.task_id ≠ m.task_id →
        (handleTaskProgress tasks m now)[i]? = some t) ∧
    (∀ (i : Nat) (t : Task), tasks[i]? = some t →
        t.task_id = m.task_id →
        ∃ t', (handleTaskProgress tasks m now)[i]? = some t' ∧
          t'.task_id = t.task_id ∧ t'.filename = t.filename ∧
          t'.status = t.status ∧ t'.created_at = t.created_at ∧
          t'.result = t.result) := by
  constructor
  · intro i t ht hne
    unfold handleTaskProgress
    rw [List.getElem?_map, ht]
    simp [hne]
  · intro i t ht heq
    have hget : (handleTaskProgress tasks m now)[i]?
        = some { t with
            stages := some (updateTaskStages (t.stages.getD []) m.stage
              m.status m.message m.data now),
            updated_at := some m.timestamp } := by
      unfold handleTaskProgress
      rw [List.getElem?_map, ht]
      simp [heq]
    exact ⟨_, hget, rfl, rfl, rfl, rfl, rfl⟩

/-- Witness for C8: a progress update for `t2` leaves the `t1` entry of a
two-task list untouched at position 0. -/
theorem handleTaskProgress_frame_witness :
    (handleTaskProgress
        [⟨"t1", "a.pdf", "processing", some [], none, none, none⟩,
         ⟨"t2", "b.pdf", "processing", some [], none, none, none⟩]
        ⟨"t2", "upload", "completed", "ok", none, "ts"⟩ "now")[0]?
      = some ⟨"t1", "a.pdf", "processing", some [], none, none, none⟩ :=
  (handleTaskProgress_frame
      [⟨"t1", "a.pdf", "processing", some [], none, none, none⟩,
       ⟨"t2", "b.pdf", "processing", some [], none, none, none⟩]
      ⟨"t2", "upload", "completed", "ok", none, "ts"⟩ "now").1 0
    ⟨"t1", "a.pdf", "processing", some [], none, none, none⟩ rfl (by decide)

lemma mem_replaceOrAppend (r x : StageRecord) (l : List StageRecord)
    (h : x ∈ replaceOrAppend r l) : x ∈ l ∨ x = r := by
  induction l with
  | nil =>
    right
    simpa [replaceOrAppend] using h
  | cons s ss ih =>
    cases hh : (s.stage == r.stage) with
    | true =>
      rw [replaceOrAppend, hh] at h
      simp only [if_true] at h
      rcases List.mem_cons.mp h with rfl | hx
      · right; rfl
      · left; exact List.mem_cons_of_mem s hx
    | false =>
      rw [replaceOrAppend, hh] at h
      simp only [Bool.false_eq_true, if_false] at h
      rcases List.mem_cons.mp h with rfl | hx
      · left; exact List.mem_cons_self x ss
      · rcases ih hx with hx' | hx'
        · left; exact List.mem_cons_of_mem s hx'
        · right; exact hx'

/-- C9 counterexample: the claim that a present `data` payload is always
stored as given is false: the payload `false` is present and non-null, yet
the stored record's `data` is the defaulted empty object `{}` (JavaScript
`data || {}` replaces every falsy payload). -/
theorem updateTaskStages_falsy_data_counterexample :
    updateTaskStages [] "curating" "processing" "m"
        (some (JsonVal.bool false)) "t0"
      = [⟨"curating", "processing", "m", JsonVal.obj [], "t0"⟩] ∧
    JsonVal.obj [] ≠ JsonVal.bool false := by
  constructor
  · rfl
  · intro h
    cases h

/-- C9 amended: the record stored by a stage write defaults its `data` field
to the empty object `{}` whenever the incoming payload is absent, `null`,
or otherwise JavaScript-falsy, and stores the payload as given whenever it
is truthy (every non-empty object or array payload in particular). -/
theorem updateTaskStages_data_default (cur : List StageRecord)
    (stage st msg : String) (data : Option JsonVal) (now : String)
    (r : StageRecord) (hr : r ∈ updateTaskStages cur stage st msg data now)
    (hnew : r ∉ cur) :
    (data = none → r.data = .obj []) ∧
    (data = some .null → r.data = .obj []) ∧
    (∀ v, data = some v → jsTruthy v = false → r.data = .obj []) ∧
    (∀ v, data = some v → jsTruthy v = true → r.data = v) := by
  rw [updateTaskStages_eq] at hr
  have hrnew : r = mkStageRecord stage st msg data now := by
    rcases mem_replaceOrAppend _ _ _ hr with hx | hx
    · exact absurd hx hnew
    · exact hx
  subst hrnew
  refine ⟨?_, ?_, ?_, ?_⟩
  · intro h; subst h; rfl
  · intro h; subst h; rfl
  · intro v h hv; subst h; simp [mkStageRecord, jsOr, hv]
  · intro v h hv; subst h; simp [mkStageRecord, jsOr, hv]

/-- Witness for C9 (amended): a stage write with an absent payload stores
`data = {}`, and one with a non-empty object payload stores it as given. -/
theorem updateTaskStages_data_default_witness :
    (⟨"parsing", "processing", "m", JsonVal.obj [], "t0"⟩
        : StageRecord).data = JsonVal.obj [] ∧
    (⟨"parsing", "processing", "m",
        JsonVal.obj [("count", JsonVal.num 2)], "t0"⟩
        : StageRecord).data = JsonVal.obj [("count", JsonVal.num 2)] := by
  constructor
  · exact (updateTaskStages_data_default [] "parsing" "processing" "m" none
      "t0" ⟨"parsing", "processing", "m", JsonVal.obj [], "t0"⟩
      (by simp [updateTaskStages, jsOr]) (by simp)).1 rfl
  · exact (updateTaskStages_data_default [] "parsing" "processing" "m"
      (some (JsonVal.obj [("count", JsonVal.num 2)])) "t0"
      ⟨"parsing", "processing", "m",
        JsonVal.obj [("count", JsonVal.num 2)], "t0"⟩
      (by simp [updateTaskStages, jsOr, jsTruthy]) (by simp)).2.2.2
      (JsonVal.obj [("count", JsonVal.num 2)]) rfl rfl

lemma jsStrictEq_error_iff (res : Option JsonVal) :
    jsStrictEqStr (res.bind (jsGetField · "status")) "error" = true
      ↔ ∃ v, res = some v
          ∧ jsGetField v "status" = some (.str "error") := by
  cases res with
  | none => simp [jsStrictEqStr]
  | some v =>
    cases hv : jsGetField v "status" with
    | none => simp [jsStrictEqStr, hv]
    | some w => cases w <;> simp [jsStrictEqStr, hv]

/-- C10: on a `task_completed` message the matching task's status becomes
`failed` exactly when the message carries a `result` whose `status` field
is the string `"error"`, and `completed` in every other case — in
particular when `result` is absent. -/
theorem handleTaskCompleted_status_spec (tasks : List Task)
    (m : CompletedMsg) (i : Nat) (t : Task) (ht : tasks[i]? = some t)
    (hid : t.task_id = m.task_id) :
    ∃ t', (handleTaskCompleted tasks m)[i]? = some t' ∧
      (t'.status = "failed" ↔
        ∃ v, m.result = some v
          ∧ jsGetField v "status" = some (.str "error")) ∧
      (m.result = none → t'.status = "completed") ∧
      (t'.status = "failed" ∨ t'.status = "completed") := by
  have hget : (handleTaskCompleted tasks m)[i]?
      = some { t with
          status :=
            if jsStrictEqStr (m.result.bind (jsGetField · "status")) "error"
            then "failed" else "completed",
          result := m.result,
          updated_at := some m.timestamp } := by
    unfold handleTaskCompleted
    rw [List.getElem?_map, ht]
    simp [hid]
  refine ⟨_, hget, ?_, ?_, ?_⟩
  · cases hb : jsStrictEqStr (m.result.bind (jsGetField · "status")) "error"
      with
    | true =>
      refine iff_of_true ?_ ((jsStrictEq_error_iff m.result).mp hb)
      simp [hb]
    | false =>
      refine iff_of_false ?_ ?_
      · simp [hb]
      · intro h
        have := (jsStrictEq_error_iff m.result).mpr h
        rw [hb] at this
        cases this
  · intro h
    simp [h, jsStrictEqStr]
  · cases hb : jsStrictEqStr (m.result.bind (jsGetField · "status")) "error"
      with
    | true => left; simp [hb]
    | false => right; simp [hb]

/-- Witness for C10: a completion message whose result is
`{ status: "error" }` marks the matching task `failed`; one with no result
marks it `completed`. -/
theorem handleTaskCompleted_status_spec_witness :
    ((handleTaskCompleted
        [⟨"t1", "a.pdf", "processing", some [], none, none, none⟩]
        ⟨"t1", some (JsonVal.obj [("status", JsonVal.str "error")]),
          "ts"⟩)[0]?).map (fun t => t.status) = some "failed" ∧
    ((handleTaskCompleted
        [⟨"t1", "a.pdf", "processing", some [], none, none, none⟩]
        ⟨"t1", none, "ts"⟩)[0]?).map (fun t => t.status)
      = some "completed" := by
  constructor
  · obtain ⟨t', hget, hiff, hnone, hcc⟩ := handleTaskCompleted_status_spec
      [⟨"t1", "a.pdf", "processing", some [], none, none, none⟩]
      ⟨"t1", some (JsonVal.obj [("status", JsonVal.str "error")]), "ts"⟩
      0 ⟨"t1", "a.pdf", "processing", some [], none, none, none⟩ rfl rfl
    have hfail : t'.status = "failed" :=
      hiff.mpr ⟨JsonVal.obj [("status", JsonVal.str "error")], rfl, rfl⟩
    rw [hget]
    simp [hfail]
  · obtain ⟨t', hget, hiff, hnone, hcc⟩ := handleTaskCompleted_status_spec
      [⟨"t1", "a.pdf", "processing", some [], none, none, none⟩]
      ⟨"t1", none, "ts"⟩
      0 ⟨"t1", "a.pdf", "processing", some [], none, none, none⟩ rfl rfl
    have hcomp : t'.status = "completed" := hnone rfl
    rw [hget]
    simp [hcomp]

end ASCR
